import Mathlib

/-!
Verification development for the Simple-Media-Controller browser extension.

The embedding covers the three scripts of the repository:
  * `content.js` (the per-tab agent): media-element scanning (`handleQuery`),
    the visibility and Instagram inclusion heuristics, the command handlers
    (`handlePause`, `handlePlay`, `handleMute`, `handleUnMute`, `handlePauseAll`,
    `handleVolume`, `handleCurrentTime`, `handleFocus`) and the autonomous
    volume enforcement (`applyStoredVolume`).
  * the background script (persistent store): the in-memory `Map` of
    hostname-to-volume records, its message handler and the
    serialization round-trip through `browser.storage.local`.
  * `popup.js` (the control panel): the interaction-suppression flag and the
    polling/refresh event logic.

DOM elements are modelled as records of the fields the scripts read or write;
JavaScript numbers that may be `NaN` or `Infinity` (media durations) are
modelled by the sum type `JNum`; other numeric fields use `Rat`.  Host-side
failure behaviour (a `volume`/`currentTime` assignment or `scrollIntoView`
call throwing) is modelled by boolean fields on the element.  The decorative
thumbnail capture (`getThumbnail`: a canvas snapshot and its colours) is pure
presentation and is not modelled; the corresponding `poster`/`bgcolor`/`fgcolor`
fields of the descriptor are omitted.
-/

namespace MC

/-- Kind of a scanned media element: the lowercased tag name of the
`<video>` or `<audio>` node. -/
inductive Tag
  | video
  | audio
deriving DecidableEq

/-- JavaScript number as used for media durations: it may be `NaN`
(metadata not available), positive infinity (live streams), or finite. -/
inductive JNum
  | nan
  | posInf
  | fin (v : Rat)
deriving DecidableEq

/-- JavaScript `isNaN` on a duration value. -/
def JNum.isNaN : JNum → Bool
  | JNum.nan => true
  | JNum.posInf => false
  | JNum.fin _ => false

/-- JavaScript comparison `x > 0` on a duration value: false for `NaN`,
true for `Infinity`, and the rational comparison otherwise. -/
def JNum.gtZero : JNum → Bool
  | JNum.nan => false
  | JNum.posInf => true
  | JNum.fin v => decide (0 < v)

/-- Model of an `HTMLMediaElement` restricted to the fields the scripts
read or write.  `rectTop`/`rectLeft`/`rectWidth`/`rectHeight` are the
element's `getBoundingClientRect()`; `styleHidden` and `styleDisplayNone`
are the computed-style checks `visibility == hidden` and `display == none`.
`volumeThrows`, `seekThrows` and `scrollThrows` record whether the host
page makes the corresponding DOM operation (`volume` assignment,
`currentTime` assignment, `scrollIntoView`) throw. -/
structure MediaEl where
  tag : Tag
  readyState : Nat
  duration : JNum
  currentTime : Rat
  paused : Bool
  volume : Rat
  muted : Bool
  rectTop : Rat
  rectLeft : Rat
  rectWidth : Rat
  rectHeight : Rat
  offsetWidth : Rat
  offsetHeight : Rat
  styleHidden : Bool
  styleDisplayNone : Bool
  volumeThrows : Bool
  seekThrows : Bool
  scrollThrows : Bool
deriving DecidableEq

/-- Bounding-rectangle bottom edge, as `getBoundingClientRect().bottom`. -/
def MediaEl.rectBottom (el : MediaEl) : Rat := el.rectTop + el.rectHeight

/-- Bounding-rectangle right edge, as `getBoundingClientRect().right`. -/
def MediaEl.rectRight (el : MediaEl) : Rat := el.rectLeft + el.rectWidth

/-- The check `el.tagName.toLowerCase() === audio` used by the scan. -/
def MediaEl.isAudio (el : MediaEl) : Bool :=
  match el.tag with
  | Tag.audio => true
  | Tag.video => false

/-- Per-page environment read by the content script: the page hostname and
the viewport dimensions (`window.innerWidth` / `window.innerHeight`). -/
structure Env where
  hostname : String
  innerWidth : Rat
  innerHeight : Rat
deriving DecidableEq

/-- Containment of one character list in another; JavaScript
`String.prototype.includes` on the underlying character sequences. -/
def listIncludes (pat : List Char) : List Char → Bool
  | [] => pat.isEmpty
  | c :: rest => pat.isPrefixOf (c :: rest) || listIncludes pat rest

/-- JavaScript `s.includes(pat)` for strings. -/
def strIncludes (s pat : String) : Bool := listIncludes pat.data s.data

/-- Hostname fragment tested by the Instagram-specific filter. -/
def instagramHost : String := "instagram.com"

/-- Embedding of `isElementVisible` from `content.js`: the bounding box
intersects the viewport with a 100px margin, the rendered dimensions are
non-zero, and the element is not hidden by styling. -/
def isElementVisible (env : Env) (el : MediaEl) : Bool :=
  decide (el.rectTop < env.innerHeight + 100) &&
  decide (el.rectBottom > -100) &&
  decide (el.rectLeft < env.innerWidth + 100) &&
  decide (el.rectRight > -100) &&
  decide (el.offsetWidth > 0) &&
  decide (el.offsetHeight > 0) &&
  !el.styleHidden &&
  !el.styleDisplayNone

/-- Embedding of `shouldIncludeInstagramMedia` from `content.js`: on a
hostname containing `instagram.com`, playing elements and audio elements are
always included, and a paused video is included only when its rendered size
exceeds 200 by 200 and it lies substantially within the viewport. -/
def shouldIncludeInstagramMedia (env : Env) (el : MediaEl) : Bool :=
  if !(strIncludes env.hostname instagramHost) then true
  else if !el.paused then true
  else if el.isAudio then true
  else
    decide (el.rectHeight > 200) &&
    decide (el.rectWidth > 200) &&
    decide (el.rectTop > -50) &&
    decide (el.rectBottom < env.innerHeight + 50)

/-- Metadata filter of the scan loop in `handleQuery`:
`el.readyState > 0 && !isNaN(el.duration) && el.duration > 0`. -/
def passesMetadata (el : MediaEl) : Bool :=
  decide (0 < el.readyState) && !el.duration.isNaN && el.duration.gtZero

/-- Media descriptor returned by `handleQuery` (the `mediaInfo` object),
minus the decorative thumbnail fields. -/
structure MediaInfo where
  type : Tag
  duration : JNum
  currentTime : Rat
  playing : Bool
  volume : Rat
  muted : Bool
  id : Nat
  visible : Bool
deriving DecidableEq

/-- Construction of the `mediaInfo` descriptor for one element at the given
scan counter value. -/
def mkMediaInfo (env : Env) (el : MediaEl) (count : Nat) : MediaInfo :=
  { type := el.tag
    duration := el.duration
    currentTime := el.currentTime
    playing := !el.paused
    volume := el.volume
    muted := el.muted
    id := count
    visible := isElementVisible env el || el.isAudio }

/-- The content script's `mediaElements` map from ordinal ids to elements,
modelled as an association list with the ids in insertion order. -/
abbrev ElemMap := List (Nat × MediaEl)

/-- JavaScript `mediaElements.has(id)`. -/
def ElemMap.hasId (m : ElemMap) (i : Nat) : Bool :=
  m.any (fun p => p.1 == i)

/-- JavaScript `mediaElements.get(id)`. -/
def ElemMap.getId (m : ElemMap) (i : Nat) : Option MediaEl :=
  (m.find? (fun p => p.1 == i)).map Prod.snd

/-- Replacement of the element bound to one id, leaving every other entry
untouched; models a mutation of `mediaElements.get(id)`. -/
def ElemMap.modifyId (m : ElemMap) (i : Nat) (f : MediaEl → MediaEl) : ElemMap :=
  m.map (fun p => if p.1 == i then (p.1, f p.2) else p)

/-- The scan loop of `handleQuery` over the remaining elements, given the
current value of the `count` variable.  It returns the three accumulation
arrays (`playingElements`, `visibleElements`, `otherElements`) and the
rebuilt `mediaElements` map; every element receives an entry in the map
before any filtering, and `count` is incremented for every element. -/
def handleQueryAux (env : Env) : List MediaEl → Nat →
    List MediaInfo × List MediaInfo × List MediaInfo × ElemMap
  | [], _ => ([], [], [], [])
  | el :: rest, count =>
    let r := handleQueryAux env rest (count + 1)
    let m2 : ElemMap := (count, el) :: r.2.2.2
    if passesMetadata el then
      if !shouldIncludeInstagramMedia env el then (r.1, r.2.1, r.2.2.1, m2)
      else
        let info := mkMediaInfo env el count
        if !el.paused then (info :: r.1, r.2.1, r.2.2.1, m2)
        else if isElementVisible env el || el.isAudio then
          (r.1, info :: r.2.1, r.2.2.1, m2)
        else (r.1, r.2.1, info :: r.2.2.1, m2)
    else (r.1, r.2.1, r.2.2.1, m2)

/-- Embedding of `handleQuery` from `content.js`: scan the document's
video/audio elements in document order starting the counter at 1, then
return all playing descriptors, at most three visible descriptors and at
most one other descriptor, together with the rebuilt id map. -/
def handleQuery (env : Env) (els : List MediaEl) : List MediaInfo × ElemMap :=
  let r := handleQueryAux env els 1
  (r.1 ++ r.2.1.take 3 ++ r.2.2.1.take 1, r.2.2.2)

/-- Effect of `el.pause()` on the modelled state. -/
def pauseOp (el : MediaEl) : MediaEl := { el with paused := true }

/-- Effect of `el.play()` on the modelled state. -/
def playOp (el : MediaEl) : MediaEl := { el with paused := false }

/-- Embedding of `handlePause`: pause each element bound to a present id,
skipping absent ids, and return the inverse-action label. -/
def handlePause (m : ElemMap) (ids : List Nat) : String × ElemMap :=
  let ack : String := "play"
  (ack, ids.foldl
    (fun acc i => if ElemMap.hasId acc i then ElemMap.modifyId acc i pauseOp else acc) m)

/-- Embedding of `handlePlay`. -/
def handlePlay (m : ElemMap) (ids : List Nat) : String × ElemMap :=
  let ack : String := "pause"
  (ack, ids.foldl
    (fun acc i => if ElemMap.hasId acc i then ElemMap.modifyId acc i playOp else acc) m)

/-- Embedding of `handleMute`: set `muted = true` on present ids. -/
def handleMute (m : ElemMap) (ids : List Nat) : String × ElemMap :=
  let ack : String := "unmute"
  (ack, ids.foldl
    (fun acc i =>
      if ElemMap.hasId acc i then ElemMap.modifyId acc i (fun e => { e with muted := true })
      else acc) m)

/-- Embedding of `handleUnMute`: set `muted = false` on present ids. -/
def handleUnMute (m : ElemMap) (ids : List Nat) : String × ElemMap :=
  let ack : String := "mute"
  (ack, ids.foldl
    (fun acc i =>
      if ElemMap.hasId acc i then ElemMap.modifyId acc i (fun e => { e with muted := false })
      else acc) m)

/-- Embedding of `handlePauseAll`: pause every currently-tracked element
whose `paused` flag is unset, and acknowledge. -/
def handlePauseAll (m : ElemMap) : String × ElemMap :=
  let ack : String := "ok"
  (ack, m.map (fun p => if !p.2.paused then (p.1, pauseOp p.2) else p))

/-- Embedding of `handleVolume`: if the id is present, try the `volume`
assignment inside try/catch and report success; otherwise return false.
A throwing assignment leaves the element unchanged. -/
def handleVolume (m : ElemMap) (i : Nat) (v : Rat) : Bool × ElemMap :=
  match ElemMap.getId m i with
  | some el =>
    if el.volumeThrows then (false, m)
    else (true, ElemMap.modifyId m i (fun e => { e with volume := v }))
  | none => (false, m)

/-- Embedding of `handleCurrentTime`: the same shape as `handleVolume` with
the `currentTime` assignment. -/
def handleCurrentTime (m : ElemMap) (i : Nat) (t : Rat) : Bool × ElemMap :=
  match ElemMap.getId m i with
  | some el =>
    if el.seekThrows then (false, m)
    else (true, ElemMap.modifyId m i (fun e => { e with currentTime := t }))
  | none => (false, m)

/-- Embedding of `handleFocus`: `scrollIntoView` run inside try/catch does
not change any modelled element field, so only the boolean result remains. -/
def handleFocus (m : ElemMap) (i : Nat) : Bool :=
  match ElemMap.getId m i with
  | some el => !el.scrollThrows
  | none => false

/-- JavaScript `x.toFixed(2)` for nonnegative numbers, represented by the
rounded integer count of hundredths: the nearest integer to `x * 100`, ties
resolved upward, which for volumes in `[0,1]` determines the produced string
exactly. -/
def jsToFixed2 (v : Rat) : Int := Rat.floor (v * 100 + 1 / 2)

/-- Embedding of `applyStoredVolume` from `content.js` as a state
transformer on one element: an element with `readyState == 0` defers (no
change in this step); otherwise, when a stored volume exists (is neither
null nor undefined, modelled by `Option`) and differs from the element's
volume at two-decimal precision, it is applied; otherwise the element is
untouched. -/
def applyStoredVolume (stored : Option Rat) (el : MediaEl) : MediaEl :=
  if el.readyState == 0 then el
  else
    match stored with
    | some v =>
      if jsToFixed2 el.volume ≠ jsToFixed2 v then { el with volume := v } else el
    | none => el

/-- The background script's `siteVolumes` JavaScript `Map`, modelled as an
association list of hostname/volume pairs in insertion order; a `Map` never
holds two entries with the same key. -/
abbrev VolTable := List (String × Rat)

/-- JavaScript `siteVolumes.has(k)` on the modelled table. -/
def mapHasKey (m : VolTable) (k : String) : Bool :=
  m.any (fun p => p.1 == k)

/-- JavaScript `siteVolumes.get(k)`: `undefined` is modelled as `none`. -/
def mapGet (m : VolTable) (k : String) : Option Rat :=
  (m.find? (fun p => p.1 == k)).map Prod.snd

/-- JavaScript `siteVolumes.set(k, v)`: overwrite the value in place when
the key exists, otherwise append a new entry. -/
def mapSet (m : VolTable) (k : String) (v : Rat) : VolTable :=
  if mapHasKey m k then m.map (fun p => if p.1 == k then (k, v) else p)
  else m ++ [(k, v)]

/-- JavaScript `Object.fromEntries` over string keys: property assignment
in iteration order, where assigning an existing key overwrites its value in
place and a fresh key appends — the serialization step of
`saveVolumesToStorage`. -/
def objFromEntries (l : List (String × Rat)) : VolTable :=
  l.foldl (fun acc p => mapSet acc p.1 p.2) []

/-- JavaScript `new Map(Object.entries(obj))`: the `Map` constructor calls
`set` on each entry in order — the deserialization step of
`loadVolumesFromStorage`. -/
def mapFromEntries (l : List (String × Rat)) : VolTable :=
  l.foldl (fun acc p => mapSet acc p.1 p.2) []

/-- Simulated process restart of the background script: serialize the
in-memory table to a plain object (`saveVolumesToStorage`) and load it back
into a fresh `Map` (`loadVolumesFromStorage`). -/
def saveLoadRoundTrip (m : VolTable) : VolTable :=
  mapFromEntries (objFromEntries m)

/-- Message received by the background script's `onMessage` listener.
`unknown` stands for any `cmd` value outside the three handled cases, which
falls through the `switch` without effect. -/
inductive BgMsg
  | getVolume (hostname : String)
  | getAllVolumes
  | setVolume (hostname : String) (volume : Rat)
  | unknown
deriving DecidableEq

/-- Response produced through `sendResponse`; `noResponse` marks the
messages that answer nothing (`setVolume` and unknown commands). -/
inductive BgResponse
  | vol (v : Option Rat)
  | table (entries : List (String × Rat))
  | noResponse
deriving DecidableEq

/-- Embedding of the background script's `onMessage` listener: the new
table state plus the response sent, per command. -/
def bgHandle (m : VolTable) (msg : BgMsg) : VolTable × BgResponse :=
  match msg with
  | BgMsg.getVolume h => (m, BgResponse.vol (mapGet m h))
  | BgMsg.getAllVolumes => (m, BgResponse.table (objFromEntries m))
  | BgMsg.setVolume h v => (mapSet m h v, BgResponse.noResponse)
  | BgMsg.unknown => (m, BgResponse.noResponse)

/-- Table reached by processing a sequence of messages starting from the
empty table of a fresh profile. -/
def bgRun (msgs : List BgMsg) : VolTable :=
  msgs.foldl (fun m msg => (bgHandle m msg).1) []

/-- The popup's quiet delay after slider use, `INTERACTION_PAUSE_MS`. -/
def INTERACTION_PAUSE_MS : Nat := 500

/-- The popup's polling period, `REFRESH_RATE_MS`. -/
def REFRESH_RATE_MS : Nat := 1500

/-- Control-flow state of `popup.js`: the `isUserInteracting` flag, the
pending `interactionTimeout` (with its remaining delay) and a counter of
refreshes that passed the interaction guard (each standing for one full
query-and-render pass of `refreshMediaList`). -/
structure PanelState where
  isUserInteracting : Bool
  timerDelay : Option Nat
  refreshCount : Nat
deriving DecidableEq

/-- Embedding of the guard at the top of `refreshMediaList`: return
immediately while the user is interacting, otherwise perform one full
refresh. -/
def refreshStep (s : PanelState) : PanelState :=
  if s.isUserInteracting then s
  else { s with refreshCount := s.refreshCount + 1 }

/-- One scheduled tick of the `setInterval` polling loop, which simply
invokes `refreshMediaList`. -/
def pollTick (s : PanelState) : PanelState := refreshStep s

/-- Embedding of `startInteraction` (pointer-down / touch-start on a
slider): set the flag and clear any pending interaction timeout. -/
def startInteraction (s : PanelState) : PanelState :=
  { s with isUserInteracting := true, timerDelay := none }

/-- Embedding of `endInteraction` (document-level pointer-up / touch-end
while interacting): clear any pending timeout and arm a fresh one with the
500 ms quiet delay. -/
def endInteraction (s : PanelState) : PanelState :=
  { s with timerDelay := some INTERACTION_PAUSE_MS }

/-- Expiry of the armed interaction timeout: its callback clears the
interaction flag and calls `refreshMediaList`; with no timeout armed
nothing happens. -/
def fireInteractionTimer (s : PanelState) : PanelState :=
  match s.timerDelay with
  | some _ => refreshStep { s with isUserInteracting := false, timerDelay := none }
  | none => s

/-- Conjunction of the two inclusion tests applied by the scan loop before
an element contributes a descriptor. -/
def passesFilters (env : Env) (el : MediaEl) : Bool :=
  passesMetadata el && shouldIncludeInstagramMedia env el

/-- Descriptors produced by the scan loop, in document order, when the
counter starts at `count`: one descriptor per element passing both
filters. -/
def selected (env : Env) : List MediaEl → Nat → List MediaInfo
  | [], _ => []
  | el :: rest, count =>
    if passesFilters env el then mkMediaInfo env el count :: selected env rest (count + 1)
    else selected env rest (count + 1)

/-- Id map produced by the scan loop when the counter starts at `count`:
consecutive ids bound to the elements in document order. -/
def mapFrom : List MediaEl → Nat → ElemMap
  | [], _ => []
  | el :: rest, count => (count, el) :: mapFrom rest (count + 1)

/-- Viewport environment of an Instagram page used as a concrete test
fixture (1000 by 800 viewport). -/
def igEnv : Env :=
  { hostname := "www.instagram.com", innerWidth := 1000, innerHeight := 800 }

/-- Concrete fixture: a paused video of rendered size 100 by 100 placed
2000px below the viewport top, with loaded metadata. -/
def igPausedVid : MediaEl :=
  { tag := Tag.video
    readyState := 1
    duration := JNum.fin 10
    currentTime := 0
    paused := true
    volume := 1
    muted := false
    rectTop := 2000
    rectLeft := 0
    rectWidth := 100
    rectHeight := 100
    offsetWidth := 100
    offsetHeight := 100
    styleHidden := false
    styleDisplayNone := false
    volumeThrows := false
    seekThrows := false
    scrollThrows := false }

/-- The same element as `igPausedVid` except that it is playing. -/
def igPlayingVid : MediaEl := { igPausedVid with paused := false }

/-- The same element as `igPausedVid` except that it is an audio tag. -/
def igPausedAudio : MediaEl := { igPausedVid with tag := Tag.audio }

/-- The same element as `igPausedAudio` except that it is playing. -/
def igPlayingAudio : MediaEl := { igPausedAudio with paused := false }

section RatReducible

attribute [local semireducible] Rat.add Rat.mul Rat.sub Rat.inv

/-- C3: under the Instagram inclusion heuristic, a paused off-screen video
of rendered size 100 by 100 is rejected by the filter and produces an empty
query result; the identical element while playing is included; and an audio
element is included whether paused or playing. -/
theorem C3_instagram_heuristic :
    shouldIncludeInstagramMedia igEnv igPausedVid = false ∧
    (handleQuery igEnv [igPausedVid]).1 = [] ∧
    shouldIncludeInstagramMedia igEnv igPlayingVid = true ∧
    (handleQuery igEnv [igPlayingVid]).1 = [mkMediaInfo igEnv igPlayingVid 1] ∧
    shouldIncludeInstagramMedia igEnv igPausedAudio = true ∧
    (handleQuery igEnv [igPausedAudio]).1 = [mkMediaInfo igEnv igPausedAudio 1] ∧
    shouldIncludeInstagramMedia igEnv igPlayingAudio = true ∧
    (handleQuery igEnv [igPlayingAudio]).1 = [mkMediaInfo igEnv igPlayingAudio 1] := by
  refine ⟨by decide, by decide, by decide, by decide, by decide, by decide, by decide, by decide⟩

/-- Absence of an id gives a failed lookup: `has` false means `get`
returns undefined. -/
lemma getId_eq_none (m : ElemMap) (i : Nat) (h : ElemMap.hasId m i = false) :
    ElemMap.getId m i = none := by
  induction m with
  | nil => rfl
  | cons p rest ih =>
    simp only [ElemMap.hasId, List.any_cons, Bool.or_eq_false_iff] at h
    unfold ElemMap.getId
    rw [List.find?_cons_of_neg _ (by simp [h.1])]
    exact ih h.2

/-- Modifying the element bound to one id leaves the lookup of any other id
unchanged. -/
lemma getId_modifyId_ne (m : ElemMap) (i : Nat) (f : MediaEl → MediaEl) (k : Nat)
    (h : k ≠ i) :
    ElemMap.getId (ElemMap.modifyId m i f) k = ElemMap.getId m k := by
  induction m with
  | nil => rfl
  | cons p rest ih =>
    have hq : ElemMap.modifyId (p :: rest) i f
        = (if p.1 == i then (p.1, f p.2) else p) :: ElemMap.modifyId rest i f := rfl
    rw [hq]
    by_cases hpk : p.1 = k
    · have hpi : (p.1 == i) = false := by
        rw [hpk]
        exact beq_eq_false_iff_ne.mpr h
      rw [show (if p.1 == i then (p.1, f p.2) else p) = p by rw [hpi]; rfl]
      unfold ElemMap.getId
      rw [List.find?_cons_of_pos _ (by simp [hpk]),
        List.find?_cons_of_pos _ (by simp [hpk])]
    · have hfst : (if p.1 == i then (p.1, f p.2) else p).1 = p.1 := by
        split <;> rfl
      have hq1 : ((if p.1 == i then (p.1, f p.2) else p).1 == k) = false := by
        rw [hfst]
        exact beq_eq_false_iff_ne.mpr hpk
      unfold ElemMap.getId
      rw [List.find?_cons_of_neg _ (by rw [hq1]; simp),
        List.find?_cons_of_neg _ (by simp [hpk])]
      exact ih

/-- A fold of guarded single-id modifications over a list of ids not
containing `k` leaves the lookup of `k` unchanged. -/
lemma foldBatch_getId (ids : List Nat) (f : MediaEl → MediaEl) (m : ElemMap) (k : Nat)
    (hk : k ∉ ids) :
    ElemMap.getId
      (ids.foldl
        (fun acc j => if ElemMap.hasId acc j then ElemMap.modifyId acc j f else acc) m) k
      = ElemMap.getId m k := by
  induction ids generalizing m with
  | nil => rfl
  | cons j rest ih =>
    have hkj : k ≠ j := by
      intro hx
      rw [hx] at hk
      exact hk (List.mem_cons_self j rest)
    have hkrest : k ∉ rest := fun hx => hk (List.mem_cons_of_mem j hx)
    simp only [List.foldl_cons]
    rw [ih _ hkrest]
    by_cases hj : ElemMap.hasId m j
    · simp only [hj, if_true]
      exact getId_modifyId_ne m j f k hkj
    · simp only [hj]
      simp

/-- When every id of the batch is absent from the map, the guarded fold is
the identity: absent ids are silently skipped. -/
lemma foldBatch_absent (ids : List Nat) (f : MediaEl → MediaEl) (m : ElemMap)
    (h : ∀ j ∈ ids, ElemMap.hasId m j = false) :
    ids.foldl
      (fun acc j => if ElemMap.hasId acc j then ElemMap.modifyId acc j f else acc) m
      = m := by
  induction ids with
  | nil => rfl
  | cons j rest ih =>
    simp only [List.foldl_cons, h j (List.mem_cons_self j rest), Bool.false_eq_true,
      if_false]
    exact ih fun x hx => h x (List.mem_cons_of_mem j hx)

/-- C4: for every batch command (play, pause, mute, unmute), ids absent
from the current mapping are silently skipped and no element bound to an id
outside the batch is affected; the single-element commands (volume,
currentTime, focus) answer `false` on an absent id and leave the map
unchanged. -/
theorem C4_stale_ids_skipped (m : ElemMap) (ids : List Nat) (k : Nat) (hk : k ∉ ids)
    (i : Nat) (hi : ElemMap.hasId m i = false) (v t : Rat) :
    (ElemMap.getId (handlePause m ids).2 k = ElemMap.getId m k) ∧
    (ElemMap.getId (handlePlay m ids).2 k = ElemMap.getId m k) ∧
    (ElemMap.getId (handleMute m ids).2 k = ElemMap.getId m k) ∧
    (ElemMap.getId (handleUnMute m ids).2 k = ElemMap.getId m k) ∧
    ((∀ j ∈ ids, ElemMap.hasId m j = false) →
      (handlePause m ids).2 = m ∧ (handlePlay m ids).2 = m ∧
      (handleMute m ids).2 = m ∧ (handleUnMute m ids).2 = m) ∧
    (handleVolume m i v = (false, m)) ∧
    (handleCurrentTime m i t = (false, m)) ∧
    (handleFocus m i = false) := by
  have hnone := getId_eq_none m i hi
  refine ⟨foldBatch_getId ids _ m k hk, foldBatch_getId ids _ m k hk,
    foldBatch_getId ids _ m k hk, foldBatch_getId ids _ m k hk,
    fun h => ⟨foldBatch_absent ids _ m h, foldBatch_absent ids _ m h,
      foldBatch_absent ids _ m h, foldBatch_absent ids _ m h⟩,
    ?_, ?_, ?_⟩
  · simp [handleVolume, hnone]
  · simp [handleCurrentTime, hnone]
  · simp [handleFocus, hnone]

/-- Witness for C4 at a concrete map and batch. -/
theorem C4_stale_ids_skipped_witness :
    (2 ∉ ([5] : List Nat)) ∧
    ElemMap.hasId [(2, igPausedVid)] 5 = false ∧
    (ElemMap.getId (handlePause [(2, igPausedVid)] [5]).2 2
      = ElemMap.getId [(2, igPausedVid)] 2) ∧
    handleVolume [(2, igPausedVid)] 5 1 = (false, [(2, igPausedVid)]) := by
  have h := C4_stale_ids_skipped [(2, igPausedVid)] [5] 2 (by decide) 5 (by decide) 1 1
  exact ⟨by decide, by decide, h.1, h.2.2.2.2.2.1⟩

/-- C5: `handleVolume` and `handleCurrentTime` answer `false` and change
nothing when the id is absent or the underlying assignment throws, and
answer `true` when the id is present and the assignment succeeds; being
total functions of the state they propagate no exception. -/
theorem C5_setter_results (m : ElemMap) (i : Nat) (v t : Rat) :
    (ElemMap.hasId m i = false →
      handleVolume m i v = (false, m) ∧ handleCurrentTime m i t = (false, m)) ∧
    (∀ el, ElemMap.getId m i = some el →
      (el.volumeThrows = true → handleVolume m i v = (false, m)) ∧
      (el.volumeThrows = false → (handleVolume m i v).1 = true) ∧
      (el.seekThrows = true → handleCurrentTime m i t = (false, m)) ∧
      (el.seekThrows = false → (handleCurrentTime m i t).1 = true)) := by
  constructor
  · intro h
    have hnone := getId_eq_none m i h
    exact ⟨by simp [handleVolume, hnone], by simp [handleCurrentTime, hnone]⟩
  · intro el hel
    refine ⟨fun hthrow => ?_, fun hok => ?_, fun hthrow => ?_, fun hok => ?_⟩
    · simp [handleVolume, hel, hthrow]
    · simp [handleVolume, hel, hok]
    · simp [handleCurrentTime, hel, hthrow]
    · simp [handleCurrentTime, hel, hok]

/-- Witness for C5 at a concrete map: present id with a succeeding
assignment, and an absent id. -/
theorem C5_setter_results_witness :
    ElemMap.hasId [(1, igPausedVid)] 7 = false ∧
    handleVolume [(1, igPausedVid)] 7 1 = (false, [(1, igPausedVid)]) ∧
    ElemMap.getId [(1, igPausedVid)] 1 = some igPausedVid ∧
    igPausedVid.volumeThrows = false ∧
    (handleVolume [(1, igPausedVid)] 1 1).1 = true := by
  refine ⟨by decide, ((C5_setter_results [(1, igPausedVid)] 7 1 1).1 (by decide)).1,
    by decide, by decide,
    ((C5_setter_results [(1, igPausedVid)] 1 1 1).2 igPausedVid (by decide)).2.1 (by decide)⟩

/-- C6: with metadata loaded, the stored volume is applied exactly when it
exists and differs from the element's volume at two-decimal precision;
with no stored volume, or an equal one at that precision, the element is
untouched. -/
theorem C6_volume_enforcement (stored : Option Rat) (el : MediaEl)
    (h : el.readyState ≠ 0) :
    (stored = none → applyStoredVolume stored el = el) ∧
    (∀ v, stored = some v → jsToFixed2 el.volume = jsToFixed2 v →
      applyStoredVolume stored el = el) ∧
    (∀ v, stored = some v → jsToFixed2 el.volume ≠ jsToFixed2 v →
      applyStoredVolume stored el = { el with volume := v }) := by
  refine ⟨fun hn => ?_, fun v hv heq => ?_, fun v hv hne => ?_⟩
  · simp [applyStoredVolume, hn, h]
  · simp [applyStoredVolume, hv, h, heq]
  · simp [applyStoredVolume, hv, h, hne]

/-- Witness for C6: a stored volume of 3/10 against an element at volume 1
differs at two decimals and is applied. -/
theorem C6_volume_enforcement_witness :
    igPausedVid.readyState ≠ 0 ∧
    jsToFixed2 igPausedVid.volume ≠ jsToFixed2 (3 / 10) ∧
    applyStoredVolume (some (3 / 10)) igPausedVid = { igPausedVid with volume := 3 / 10 } := by
  refine ⟨by decide, by decide, ?_⟩
  exact (C6_volume_enforcement (some (3 / 10)) igPausedVid (by decide)).2.2 (3 / 10) rfl
    (by decide)

/-- C9: a polling tick in the UserInteracting state is a no-op; ending the
interaction arms the 500 ms quiet timer, whose expiry performs exactly one
refresh, clears the interaction flag and disarms the timer, so a second
expiry does nothing further. -/
theorem C9_poll_suppression (s : PanelState) :
    (s.isUserInteracting = true → pollTick s = s) ∧
    ((endInteraction s).timerDelay = some INTERACTION_PAUSE_MS) ∧
    (s.isUserInteracting = true → pollTick (endInteraction s) = endInteraction s) ∧
    ((fireInteractionTimer (endInteraction s)).refreshCount = s.refreshCount + 1) ∧
    ((fireInteractionTimer (endInteraction s)).isUserInteracting = false) ∧
    ((fireInteractionTimer (endInteraction s)).timerDelay = none) ∧
    (fireInteractionTimer (fireInteractionTimer (endInteraction s)) =
      fireInteractionTimer (endInteraction s)) := by
  refine ⟨fun h => ?_, rfl, fun h => ?_, ?_, ?_, ?_, ?_⟩
  · simp [pollTick, refreshStep, h]
  · simp [pollTick, refreshStep, endInteraction, h]
  · simp [fireInteractionTimer, endInteraction, refreshStep]
  · simp [fireInteractionTimer, endInteraction, refreshStep]
  · simp [fireInteractionTimer, endInteraction, refreshStep]
  · simp [fireInteractionTimer, endInteraction, refreshStep]

/-- Witness for C9: the interacting state with no timer armed. -/
theorem C9_poll_suppression_witness :
    pollTick { isUserInteracting := true, timerDelay := none, refreshCount := 0 }
      = { isUserInteracting := true, timerDelay := none, refreshCount := 0 } :=
  (C9_poll_suppression
    { isUserInteracting := true, timerDelay := none, refreshCount := 0 }).1 rfl

/-- The scan loop, written as one pass with the two filters factored out:
the three accumulation arrays are exactly the playing, paused-visible and
paused-hidden descriptors of the selected elements, and the id map binds
consecutive ids to all scanned elements. -/
lemma handleQueryAux_eq (env : Env) (els : List MediaEl) (count : Nat) :
    handleQueryAux env els count =
      ((selected env els count).filter (fun i => i.playing),
       (selected env els count).filter (fun i => !i.playing && i.visible),
       (selected env els count).filter (fun i => !i.playing && !i.visible),
       mapFrom els count) := by
  induction els generalizing count with
  | nil => rfl
  | cons el rest ih =>
    simp only [handleQueryAux, ih count.succ, selected, mapFrom, passesFilters]
    by_cases h1 : passesMetadata el
    · simp only [h1, if_true, Bool.true_and]
      by_cases h2 : shouldIncludeInstagramMedia env el
      · simp only [h2, Bool.not_true, Bool.false_eq_true, if_false, if_true]
        by_cases h3 : el.paused
        · simp only [h3, Bool.not_true, Bool.false_eq_true, if_false]
          by_cases h4 : (isElementVisible env el || el.isAudio) = true
          · simp [List.filter_cons, mkMediaInfo, h3, h4]
          · simp only [Bool.not_eq_true] at h4
            simp [List.filter_cons, mkMediaInfo, h3, h4]
        · simp only [Bool.not_eq_true] at h3
          simp [List.filter_cons, mkMediaInfo, h3]
      · simp only [Bool.not_eq_true] at h2
        simp [h2]
    · simp only [Bool.not_eq_true] at h1
      simp [h1]

/-- The id map built by a scan binds, in order, each scanned element. -/
lemma mapFrom_snd (els : List MediaEl) (count : Nat) :
    (mapFrom els count).map Prod.snd = els := by
  induction els generalizing count with
  | nil => rfl
  | cons el rest ih =>
    simp only [mapFrom, List.map_cons, ih]

/-- After `handlePauseAll`, every tracked entry is paused. -/
lemma handlePauseAll_all_paused (m : ElemMap) :
    ((handlePauseAll m).2).all (fun p => p.2.paused) = true := by
  simp only [handlePauseAll, List.all_eq_true]
  intro p hp
  obtain ⟨q, hq, rfl⟩ := List.mem_map.mp hp
  by_cases h : q.2.paused
  · simp [h]
  · simp [h, pauseOp]

/-- C7: `pauseAll` acknowledges with the label, leaves every element of
the current mapping paused, and that mapping covers every element of the
last scan, including the ones the query filters dropped. -/
theorem C7_pause_all (env : Env) (els : List MediaEl) :
    ((handlePauseAll (handleQuery env els).2).1 = "ok") ∧
    (((handlePauseAll (handleQuery env els).2).2).all (fun p => p.2.paused) = true) ∧
    ((handleQuery env els).2.map Prod.snd = els) := by
  refine ⟨rfl, handlePauseAll_all_paused _, ?_⟩
  show ((handleQueryAux env els 1).2.2.2).map Prod.snd = els
  rw [handleQueryAux_eq env els 1]
  exact mapFrom_snd els 1

/-- Lookup after an overwrite-in-place of an existing key. -/
lemma mapGet_replace (m : VolTable) (k : String) (v : Rat)
    (h : mapHasKey m k = true) :
    mapGet (m.map (fun p => if p.1 == k then (k, v) else p)) k = some v := by
  induction m with
  | nil => simp [mapHasKey] at h
  | cons p rest ih =>
    by_cases hpk : p.1 = k
    · have hb : (p.1 == k) = true := by simp [hpk]
      simp only [List.map_cons, hb, if_true]
      unfold mapGet
      rw [List.find?_cons_of_pos _ (by simp)]
      rfl
    · have hb : (p.1 == k) = false := beq_eq_false_iff_ne.mpr hpk
      simp only [List.map_cons, hb, Bool.false_eq_true, if_false]
      unfold mapGet
      rw [List.find?_cons_of_neg _ (by simp [hpk])]
      apply ih
      simp only [mapHasKey, List.any_cons, hb, Bool.false_or] at h
      exact h

/-- Lookup of a freshly appended key. -/
lemma mapGet_append_fresh (m : VolTable) (k : String) (v : Rat)
    (h : mapHasKey m k = false) :
    mapGet (m ++ [(k, v)]) k = some v := by
  induction m with
  | nil =>
    unfold mapGet
    rw [List.nil_append, List.find?_cons_of_pos _ (by simp)]
    rfl
  | cons p rest ih =>
    simp only [mapHasKey, List.any_cons, Bool.or_eq_false_iff] at h
    unfold mapGet
    rw [List.cons_append, List.find?_cons_of_neg _ (by simp [h.1])]
    exact ih h.2

/-- JavaScript `map.set(k, v)` makes `map.get(k)` answer `v`. -/
lemma mapGet_mapSet_self (m : VolTable) (k : String) (v : Rat) :
    mapGet (mapSet m k v) k = some v := by
  unfold mapSet
  by_cases h : mapHasKey m k = true
  · rw [if_pos h]
    exact mapGet_replace m k v h
  · rw [if_neg h]
    exact mapGet_append_fresh m k v (by revert h; cases mapHasKey m k <;> simp)

/-- Overwriting an existing key in place does not change the key list. -/
lemma replace_keys (m : VolTable) (k : String) (v : Rat) :
    (m.map (fun p => if p.1 == k then (k, v) else p)).map Prod.fst
      = m.map Prod.fst := by
  induction m with
  | nil => rfl
  | cons p rest ih =>
    simp only [List.map_cons, ih]
    by_cases hpk : p.1 = k
    · rw [show (p.1 == k) = true by simp [hpk]]
      simp [hpk]
    · rw [show (p.1 == k) = false by simp [hpk]]
      simp

/-- Key presence distributes over table concatenation. -/
lemma hasKey_append (a b : VolTable) (k : String) :
    mapHasKey (a ++ b) k = (mapHasKey a k || mapHasKey b k) := by
  simp [mapHasKey, List.any_append]

/-- Key presence is membership in the key list. -/
lemma hasKey_iff_mem_keys (m : VolTable) (k : String) :
    mapHasKey m k = true ↔ k ∈ m.map Prod.fst := by
  simp [mapHasKey, List.any_eq_true, List.mem_map, beq_iff_eq]

/-- Setting a fresh key appends its record. -/
lemma mapSet_append_of_absent (m : VolTable) (k : String) (v : Rat)
    (h : mapHasKey m k = false) :
    mapSet m k v = m ++ [(k, v)] := by
  unfold mapSet
  rw [if_neg (by simp [h])]

/-- The `set`-fold over entries with fresh, pairwise-distinct keys appends
them all: the core of the storage round-trip. -/
lemma foldl_mapSet_fresh (l : List (String × Rat)) :
    ∀ acc : VolTable, (∀ p ∈ l, mapHasKey acc p.1 = false) →
      (l.map Prod.fst).Nodup →
      l.foldl (fun a p => mapSet a p.1 p.2) acc = acc ++ l := by
  induction l with
  | nil =>
    intro acc _ _
    simp
  | cons p rest ih =>
    intro acc hfresh hnodup
    simp only [List.foldl_cons]
    rw [mapSet_append_of_absent acc p.1 p.2 (hfresh p (List.mem_cons_self p rest))]
    rw [ih (acc ++ [p]) ?fresh ?nodup]
    · simp
    case fresh =>
      intro q hq
      rw [hasKey_append, hfresh q (List.mem_cons_of_mem p hq), Bool.false_or]
      have hne : q.1 ≠ p.1 := by
        simp only [List.map_cons, List.nodup_cons] at hnodup
        intro hx
        exact hnodup.1 (hx ▸ List.mem_map_of_mem Prod.fst hq)
      simp only [mapHasKey, List.any_cons, List.any_nil, Bool.or_false]
      exact beq_eq_false_iff_ne.mpr fun hx => hne hx.symm
    case nodup =>
      simp only [List.map_cons, List.nodup_cons] at hnodup
      exact hnodup.2

/-- Serializing a table with pairwise-distinct keys to a plain object is
the identity. -/
lemma objFromEntries_id (m : VolTable) (h : (m.map Prod.fst).Nodup) :
    objFromEntries m = m := by
  unfold objFromEntries
  rw [foldl_mapSet_fresh m [] (fun p _ => rfl) h]
  simp

/-- The save-then-load round trip is the identity on tables with
pairwise-distinct keys — which every JavaScript `Map` has. -/
lemma saveLoadRoundTrip_id (m : VolTable) (h : (m.map Prod.fst).Nodup) :
    saveLoadRoundTrip m = m := by
  unfold saveLoadRoundTrip mapFromEntries
  rw [objFromEntries_id m h]
  rw [foldl_mapSet_fresh m [] (fun p _ => rfl) h]
  simp

/-- `set` preserves the distinct-keys invariant of the table. -/
lemma mapSet_keys_nodup (m : VolTable) (k : String) (v : Rat)
    (h : (m.map Prod.fst).Nodup) :
    ((mapSet m k v).map Prod.fst).Nodup := by
  unfold mapSet
  by_cases hk : mapHasKey m k = true
  · rw [if_pos hk, replace_keys]
    exact h
  · rw [if_neg hk, List.map_append]
    have hkm : k ∉ m.map Prod.fst := by
      intro hmem
      exact hk ((hasKey_iff_mem_keys m k).mpr hmem)
    simp only [List.map_cons, List.map_nil]
    rw [List.nodup_append]
    exact ⟨h, List.nodup_singleton k, by simpa using hkm⟩

/-- C2: after `set(H, V)` the lookup of `H` answers `V`, and the simulated
process restart — serializing the `Map` to a plain object and loading it
back — is the identity on the table, so the lookup still answers `V`. -/
theorem C2_store_roundtrip (tbl : VolTable) (H : String) (V : Rat)
    (hV : 0 ≤ V ∧ V ≤ 1) (hkeys : (tbl.map Prod.fst).Nodup) :
    mapGet (mapSet tbl H V) H = some V ∧
    saveLoadRoundTrip (mapSet tbl H V) = mapSet tbl H V ∧
    mapGet (saveLoadRoundTrip (mapSet tbl H V)) H = some V := by
  have hrt := saveLoadRoundTrip_id (mapSet tbl H V) (mapSet_keys_nodup tbl H V hkeys)
  refine ⟨mapGet_mapSet_self tbl H V, hrt, ?_⟩
  rw [hrt]
  exact mapGet_mapSet_self tbl H V

/-- Hostname fixture for witnesses. -/
def siteA : String := "a.example"

/-- Second hostname fixture for witnesses. -/
def siteB : String := "b.example"

/-- Witness for C2 on a one-record table and a fresh hostname. -/
theorem C2_store_roundtrip_witness :
    (0 ≤ (3 / 10 : Rat) ∧ (3 / 10 : Rat) ≤ 1) ∧
    (([(siteA, (1 / 2 : Rat))].map Prod.fst).Nodup) ∧
    mapGet (mapSet [(siteA, 1 / 2)] siteB (3 / 10)) siteB = some (3 / 10) ∧
    saveLoadRoundTrip (mapSet [(siteA, 1 / 2)] siteB (3 / 10))
      = mapSet [(siteA, 1 / 2)] siteB (3 / 10) := by
  have h := C2_store_roundtrip [(siteA, 1 / 2)] siteB (3 / 10) (by decide) (by decide)
  exact ⟨by decide, by decide, h.1, h.2.1⟩

/-- A key present after running a message batch from a given table was
present before or was the target of a `setVolume` in the batch. -/
lemma bgRun_key_origin (msgs : List BgMsg) :
    ∀ acc : VolTable, ∀ H : String,
      mapHasKey (msgs.foldl (fun m msg => (bgHandle m msg).1) acc) H = true →
      mapHasKey acc H = true ∨ ∃ w, BgMsg.setVolume H w ∈ msgs := by
  induction msgs with
  | nil =>
    intro acc H h
    exact Or.inl h
  | cons msg rest ih =>
    intro acc H h
    simp only [List.foldl_cons] at h
    rcases ih _ H h with h1 | h2
    · cases msg with
      | getVolume s => exact Or.inl h1
      | getAllVolumes => exact Or.inl h1
      | unknown => exact Or.inl h1
      | setVolume s v =>
        simp only [bgHandle] at h1
        rw [hasKey_iff_mem_keys] at h1
        unfold mapSet at h1
        by_cases hs : mapHasKey acc s = true
        · rw [if_pos hs, replace_keys] at h1
          exact Or.inl ((hasKey_iff_mem_keys acc H).mpr h1)
        · rw [if_neg hs, List.map_append] at h1
          rcases List.mem_append.mp h1 with hm | hm
          · exact Or.inl ((hasKey_iff_mem_keys acc H).mpr hm)
          · simp only [List.map_cons, List.map_nil, List.mem_singleton] at hm
            exact Or.inr ⟨v, by rw [hm]; exact List.mem_cons_self _ rest⟩
    · obtain ⟨w, hw⟩ := h2
      exact Or.inr ⟨w, List.mem_cons_of_mem msg hw⟩

/-- C8: the read commands and unknown commands leave the table untouched,
any mutation comes from a `setVolume` message, and a hostname holds a
record in a reachable table only if a `setVolume` for that hostname was
processed. -/
theorem C8_set_only_mutator (m : VolTable) (h : String) (msgs : List BgMsg)
    (H : String) (hH : mapHasKey (bgRun msgs) H = true) :
    ((bgHandle m (BgMsg.getVolume h)).1 = m) ∧
    ((bgHandle m BgMsg.getAllVolumes).1 = m) ∧
    ((bgHandle m BgMsg.unknown).1 = m) ∧
    (∀ msg : BgMsg, (bgHandle m msg).1 ≠ m → ∃ hh ww, msg = BgMsg.setVolume hh ww) ∧
    (∃ w, BgMsg.setVolume H w ∈ msgs) := by
  refine ⟨rfl, rfl, rfl, ?_, ?_⟩
  · intro msg hne
    cases msg with
    | getVolume s => exact absurd rfl hne
    | getAllVolumes => exact absurd rfl hne
    | unknown => exact absurd rfl hne
    | setVolume s v => exact ⟨s, v, rfl⟩
  · rcases bgRun_key_origin msgs [] H hH with h1 | h2
    · simp [mapHasKey] at h1
    · exact h2

/-- Witness for C8: one `setVolume` message creates the record it names. -/
theorem C8_set_only_mutator_witness :
    mapHasKey (bgRun [BgMsg.setVolume siteA (1 / 2)]) siteA = true ∧
    (∃ w, BgMsg.setVolume siteA w ∈ [BgMsg.setVolume siteA (1 / 2)]) := by
  have h := C8_set_only_mutator [] siteB [BgMsg.setVolume siteA (1 / 2)] siteA (by decide)
  exact ⟨by decide, h.2.2.2.2⟩

/-- The result list of `handleQuery` in terms of the selected descriptors:
all playing ones, at most three paused-visible ones, at most one
paused-hidden one. -/
lemma handleQuery_fst (env : Env) (els : List MediaEl) :
    (handleQuery env els).1 =
      (selected env els 1).filter (fun i => i.playing)
      ++ ((selected env els 1).filter (fun i => !i.playing && i.visible)).take 3
      ++ ((selected env els 1).filter (fun i => !i.playing && !i.visible)).take 1 := by
  show (handleQueryAux env els 1).1
      ++ (handleQueryAux env els 1).2.1.take 3
      ++ (handleQueryAux env els 1).2.2.1.take 1 = _
  rw [handleQueryAux_eq env els 1]

/-- The map component of `handleQuery` binds consecutive ids from 1 to the
scanned elements in document order. -/
lemma handleQuery_snd (env : Env) (els : List MediaEl) :
    (handleQuery env els).2 = mapFrom els 1 := by
  show (handleQueryAux env els 1).2.2.2 = _
  rw [handleQueryAux_eq env els 1]

/-- Every selected descriptor carries an id at least the starting count. -/
lemma selected_id_ge (env : Env) (els : List MediaEl) :
    ∀ count, ∀ i ∈ selected env els count, count ≤ i.id := by
  induction els with
  | nil =>
    intro count i hi
    simp [selected] at hi
  | cons el rest ih =>
    intro count i hi
    by_cases hp : passesFilters env el = true
    · simp only [selected, hp, if_true] at hi
      rcases List.mem_cons.mp hi with rfl | hi2
      · simp [mkMediaInfo]
      · exact Nat.le_of_succ_le (ih (count + 1) i hi2)
    · simp only [selected, hp, if_false] at hi
      exact Nat.le_of_succ_le (ih (count + 1) i hi)

/-- The selected descriptors carry strictly increasing ids. -/
lemma selected_pairwise (env : Env) (els : List MediaEl) :
    ∀ count, (selected env els count).Pairwise (fun a b => a.id < b.id) := by
  induction els with
  | nil =>
    intro count
    simp [selected]
  | cons el rest ih =>
    intro count
    by_cases hp : passesFilters env el = true
    · simp only [selected, hp, if_true]
      refine List.Pairwise.cons ?_ (ih (count + 1))
      intro b hb
      have hb2 := selected_id_ge env rest (count + 1) b hb
      simp only [mkMediaInfo]
      omega
    · simp only [selected, hp, if_false]
      exact ih (count + 1)

/-- Every selected descriptor is the descriptor of some scanned element, at
the id matching the element's position. -/
lemma selected_spec (env : Env) (els : List MediaEl) :
    ∀ count, ∀ i ∈ selected env els count,
      ∃ k el2, els[k]? = some el2 ∧ passesFilters env el2 = true ∧
        i = mkMediaInfo env el2 (count + k) := by
  induction els with
  | nil =>
    intro count i hi
    simp [selected] at hi
  | cons el rest ih =>
    intro count i hi
    by_cases hp : passesFilters env el = true
    · simp only [selected, hp, if_true] at hi
      rcases List.mem_cons.mp hi with rfl | hi2
      · exact ⟨0, el, by simp, hp, by rw [Nat.add_zero]⟩
      · obtain ⟨k, el2, h1, h2, h3⟩ := ih (count + 1) i hi2
        refine ⟨k + 1, el2, by simpa using h1, h2, ?_⟩
        rw [h3]
        congr 1
        omega
    · simp only [selected, hp, if_false] at hi
      obtain ⟨k, el2, h1, h2, h3⟩ := ih (count + 1) i hi
      refine ⟨k + 1, el2, by simpa using h1, h2, ?_⟩
      rw [h3]
      congr 1
      omega

/-- An element passing both filters contributes its descriptor to the
selected list, at the id matching its position. -/
lemma mem_selected (env : Env) (els : List MediaEl) :
    ∀ count k el2, els[k]? = some el2 → passesFilters env el2 = true →
      mkMediaInfo env el2 (count + k) ∈ selected env els count := by
  induction els with
  | nil =>
    intro count k el2 h
    simp at h
  | cons el rest ih =>
    intro count k el2 h hp
    cases k with
    | zero =>
      have hel : el = el2 := by simpa using h
      subst hel
      rw [Nat.add_zero]
      simp only [selected, hp, if_true]
      exact List.mem_cons_self _ _
    | succ k2 =>
      simp only [List.getElem?_cons_succ] at h
      have hmem := ih (count + 1) k2 el2 h hp
      rw [show count + (k2 + 1) = (count + 1) + k2 by omega]
      by_cases hpe : passesFilters env el = true
      · simp only [selected, hpe, if_true]
        exact List.mem_cons_of_mem _ hmem
      · simp only [selected, hpe, if_false]
        exact hmem

/-- There are no more playing descriptors among the selected ones than
playing elements in the document. -/
lemma selected_playing_count (env : Env) (els : List MediaEl) :
    ∀ count, (selected env els count).countP (fun i => i.playing)
      ≤ els.countP (fun el => !el.paused) := by
  induction els with
  | nil =>
    intro count
    simp [selected]
  | cons el rest ih =>
    intro count
    by_cases hp : passesFilters env el = true
    · simp only [selected, hp, if_true]
      rw [List.countP_cons, List.countP_cons]
      have hih := ih (count + 1)
      simp only [mkMediaInfo]
      omega
    · simp only [selected, hp, if_false]
      rw [List.countP_cons]
      exact le_trans (ih (count + 1)) (Nat.le_add_right _ _)

/-- A playing element passes the Instagram filter unconditionally. -/
lemma shouldInclude_of_playing (env : Env) (el : MediaEl) (h : el.paused = false) :
    shouldIncludeInstagramMedia env el = true := by
  simp [shouldIncludeInstagramMedia, h]

/-- Lookup of a scan-assigned id in the scan-built map finds the element at
the matching position. -/
lemma mapFrom_getId (els : List MediaEl) :
    ∀ count k, k < els.length →
      ElemMap.getId (mapFrom els count) (count + k) = els[k]? := by
  induction els with
  | nil =>
    intro count k h
    simp at h
  | cons el rest ih =>
    intro count k h
    cases k with
    | zero =>
      show ElemMap.getId ((count, el) :: mapFrom rest (count + 1)) (count + 0) = _
      unfold ElemMap.getId
      rw [Nat.add_zero, List.find?_cons_of_pos _ (by simp)]
      simp
    | succ k2 =>
      show ElemMap.getId ((count, el) :: mapFrom rest (count + 1)) (count + (k2 + 1)) = _
      unfold ElemMap.getId
      rw [List.find?_cons_of_neg _ (by simp)]
      have hih := ih (count + 1) k2 (by simpa using h)
      simp only [List.getElem?_cons_succ]
      rw [show count + (k2 + 1) = (count + 1) + k2 by omega]
      exact hih

/-- C1: the query result splits into all playing descriptors, then at most
three paused-visible ones, then at most one paused-hidden one; its length
is bounded by the number of playing elements plus four; and every playing
element passing the metadata filter contributes its descriptor. -/
theorem C1_query_shape (env : Env) (els : List MediaEl) :
    ∃ A B C : List MediaInfo,
      (handleQuery env els).1 = A ++ B ++ C ∧
      (∀ i ∈ A, i.playing = true) ∧
      (∀ i ∈ B, i.playing = false ∧ i.visible = true) ∧
      B.length ≤ 3 ∧
      (∀ i ∈ C, i.playing = false ∧ i.visible = false) ∧
      C.length ≤ 1 ∧
      (handleQuery env els).1.length ≤ els.countP (fun el => !el.paused) + 4 ∧
      (∀ k el2, els[k]? = some el2 → el2.paused = false → passesMetadata el2 = true →
        mkMediaInfo env el2 (k + 1) ∈ (handleQuery env els).1) := by
  have heq := handleQuery_fst env els
  refine ⟨_, _, _, heq, ?_, ?_, List.length_take_le 3 _, ?_, List.length_take_le 1 _,
    ?_, ?_⟩
  · intro i hi
    exact (List.mem_filter.mp hi).2
  · intro i hi
    have h2 := (List.mem_filter.mp (List.mem_of_mem_take hi)).2
    rw [Bool.and_eq_true] at h2
    exact ⟨by simpa using h2.1, h2.2⟩
  · intro i hi
    have h2 := (List.mem_filter.mp (List.mem_of_mem_take hi)).2
    rw [Bool.and_eq_true] at h2
    exact ⟨by simpa using h2.1, by simpa using h2.2⟩
  · rw [heq]
    simp only [List.length_append]
    have hA : ((selected env els 1).filter (fun i => i.playing)).length
        ≤ els.countP (fun el => !el.paused) := by
      rw [← List.countP_eq_length_filter]
      exact selected_playing_count env els 1
    have hB := List.length_take_le 3
      ((selected env els 1).filter (fun i => !i.playing && i.visible))
    have hC := List.length_take_le 1
      ((selected env els 1).filter (fun i => !i.playing && !i.visible))
    omega
  · intro k el2 h1 h2 h3
    have hpf : passesFilters env el2 = true := by
      simp [passesFilters, h3, shouldInclude_of_playing env el2 h2]
    have hmem := mem_selected env els 1 k el2 h1 hpf
    rw [show k + 1 = 1 + k by omega, heq]
    refine List.mem_append.mpr (Or.inl (List.mem_append.mpr (Or.inl ?_)))
    refine List.mem_filter.mpr ⟨hmem, ?_⟩
    simp [mkMediaInfo, h2]

/-- Witness for C1 on a one-element document with a playing video. -/
theorem C1_query_shape_witness :
    mkMediaInfo igEnv igPlayingVid 1 ∈ (handleQuery igEnv [igPlayingVid]).1 ∧
    (handleQuery igEnv [igPlayingVid]).1.length
      ≤ [igPlayingVid].countP (fun el => !el.paused) + 4 := by
  obtain ⟨A, B, C, h1, h2, h3, h4, h5, h6, h7, h8⟩ := C1_query_shape igEnv [igPlayingVid]
  exact ⟨h8 0 igPlayingVid (by decide) (by decide) (by decide), h7⟩

/-- C10: all ids of one query result are pairwise distinct, and every
returned descriptor carries the 1-based document-order position of its
element as id, reports exactly that element's state, and is bound to that
element in the freshly rebuilt mapping. -/
theorem C10_ids_consistent (env : Env) (els : List MediaEl) :
    ((handleQuery env els).1.map (fun i => i.id)).Nodup ∧
    (∀ i ∈ (handleQuery env els).1, ∃ k el2, els[k]? = some el2 ∧ i.id = k + 1 ∧
      i = mkMediaInfo env el2 (k + 1) ∧
      ElemMap.getId (handleQuery env els).2 i.id = some el2) := by
  have heq := handleQuery_fst env els
  have hpw := selected_pairwise env els 1
  have hpwmap : ((selected env els 1).map (fun i => i.id)).Pairwise (· < ·) :=
    List.Pairwise.map (fun i : MediaInfo => i.id) (fun a b h => h) hpw
  have hmapNodup : ((selected env els 1).map (fun i => i.id)).Nodup :=
    List.Pairwise.imp (fun h => Nat.ne_of_lt h) hpwmap
  have hinj := List.inj_on_of_nodup_map hmapNodup
  have hA : List.Sublist ((selected env els 1).filter (fun i => i.playing))
      (selected env els 1) :=
    List.filter_sublist _
  have hB : List.Sublist
      (((selected env els 1).filter (fun i => !i.playing && i.visible)).take 3)
      (selected env els 1) :=
    (List.take_sublist 3 _).trans (List.filter_sublist _)
  have hC : List.Sublist
      (((selected env els 1).filter (fun i => !i.playing && !i.visible)).take 1)
      (selected env els 1) :=
    (List.take_sublist 1 _).trans (List.filter_sublist _)
  constructor
  · rw [heq, List.map_append, List.map_append]
    have hdisj : ∀ x : MediaInfo → Bool, ∀ y : MediaInfo → Bool,
        (∀ i : MediaInfo, x i = true → y i = true → False) →
        ∀ L1 L2 : List MediaInfo,
        List.Sublist L1 ((selected env els 1).filter x) →
        List.Sublist L2 ((selected env els 1).filter y) →
        List.Disjoint (L1.map (fun i => i.id)) (L2.map (fun i => i.id)) := by
      intro x y hxy L1 L2 hL1 hL2 a ha1 ha2
      obtain ⟨i1, hi1, rfl⟩ := List.mem_map.mp ha1
      obtain ⟨i2, hi2, hid⟩ := List.mem_map.mp ha2
      have hm1 := List.mem_filter.mp (hL1.subset hi1)
      have hm2 := List.mem_filter.mp (hL2.subset hi2)
      have : i1 = i2 := hinj hm1.1 hm2.1 hid.symm
      exact hxy i1 hm1.2 (this ▸ hm2.2)
    have hnA : ((selected env els 1).filter (fun i => i.playing)).map (fun i => i.id)
        |>.Nodup := (hA.map (fun i => i.id)).nodup hmapNodup
    have hnB := ((hB.map (fun i => i.id)).nodup hmapNodup)
    have hnC := ((hC.map (fun i => i.id)).nodup hmapNodup)
    refine List.Nodup.append (List.Nodup.append hnA hnB ?_) hnC ?_
    · refine hdisj (fun i => i.playing) (fun i => !i.playing && i.visible) ?_ _ _
        (List.Sublist.refl _) (List.take_sublist 3 _)
      intro i hx hy
      rw [Bool.and_eq_true] at hy
      simp [hx] at hy
    · intro a ha1 ha2
      rcases List.mem_append.mp ha1 with ha1 | ha1
      · exact hdisj (fun i => i.playing) (fun i => !i.playing && !i.visible)
          (by intro i hx hy; rw [Bool.and_eq_true] at hy; simp [hx] at hy) _ _
          (List.Sublist.refl _) (List.take_sublist 1 _) ha1 ha2
      · exact hdisj (fun i => !i.playing && i.visible) (fun i => !i.playing && !i.visible)
          (by intro i hx hy
              rw [Bool.and_eq_true] at hx
              rw [Bool.and_eq_true] at hy
              simp [hx.2] at hy) _ _
          (List.take_sublist 3 _) (List.take_sublist 1 _) ha1 ha2
  · intro i hi
    have hiS : i ∈ selected env els 1 := by
      rw [heq] at hi
      rcases List.mem_append.mp hi with h | h
      · rcases List.mem_append.mp h with h | h
        · exact hA.subset h
        · exact hB.subset h
      · exact hC.subset h
    obtain ⟨k, el2, h1, h2, h3⟩ := selected_spec env els 1 i hiS
    have hk : k < els.length := by
      by_contra hk
      rw [List.getElem?_eq_none (by omega)] at h1
      exact Option.noConfusion h1
    have hid : i.id = 1 + k := by
      rw [h3]
      rfl
    refine ⟨k, el2, h1, by omega, ?_, ?_⟩
    · rw [h3]
      congr 1
      omega
    · rw [handleQuery_snd env els, hid, mapFrom_getId els 1 k hk]
      exact h1

/-- Witness for C10 on a one-element document with a playing video. -/
theorem C10_ids_consistent_witness :
    ∃ k el2, ([igPlayingVid] : List MediaEl)[k]? = some el2 ∧
      (mkMediaInfo igEnv igPlayingVid 1).id = k + 1 ∧
      mkMediaInfo igEnv igPlayingVid 1 = mkMediaInfo igEnv el2 (k + 1) ∧
      ElemMap.getId (handleQuery igEnv [igPlayingVid]).2
        (mkMediaInfo igEnv igPlayingVid 1).id = some el2 := by
  refine (C10_ids_consistent igEnv [igPlayingVid]).2 (mkMediaInfo igEnv igPlayingVid 1) ?_
  rw [show (handleQuery igEnv [igPlayingVid]).1 = [mkMediaInfo igEnv igPlayingVid 1]
    by decide]
  exact List.mem_singleton_self _

end RatReducible

end MC
